import Mathlib

/-!
# Asynchronous download session (`download-async.c`)

A shallow embedding of the libsoup download helper found in
`C/libsoup/download/async/download-async.c`.

* Pointers are represented by a `Bool` telling whether they are non-`NULL`.
* `guint64` / `gsize` values are natural numbers reduced modulo `2 ^ 64`.
* Every call into a collaborator (GLib main loop, GIO streams, libsoup, the
  user supplied handlers) is recorded as an `Event`; the answers of the
  collaborators are explicit arguments of the embedded functions.
* The three `GAsyncReadyCallback`s are functions from the transfer record and
  the collaborator answers to the new record and the events they produce.
  `dispatch` is the main loop delivering one completed asynchronous operation.
-/

namespace DownloadAsync

/-- Number of values of a `guint64` (and of a `gsize` on LP64), `2 ^ 64`. -/
def UINT64_MODULUS : Nat := 18446744073709551616

/-- Constant `G_USEC_PER_SEC` of GLib. -/
def G_USEC_PER_SEC : Nat := 1000000

/-- Conversion of a signed 64-bit value (`gint64`, `gssize`, `goffset`) to
`guint64`, as C does on assignment or in a mixed comparison. -/
def to_guint64 (x : Int) : Nat := (x % 18446744073709551616).toNat

/-- Place a progress handler invocation comes from. For the streaming call
site the clock reading that opened the one second gate is kept. -/
inductive CallSite where
  | read_cb (now : Int)
  | read_close_cb
  deriving DecidableEq, Repr

/-- Calls into collaborators made by the download code. -/
inductive Event where
  | mkdir_with_parents (path : List Char)
  | session_new
  | session_request (uri : List Char)
  | send_async
  | file_replace
  | read_async
  | write_all (count n_written : Nat)
  | close_async
  | p_handler (site : CallSite) (downloaded_bytes total_bytes : Nat)
  | c_handler
  | main_loop_quit
  | cancellable_cancel
  | cancellable_unref
  | output_unref
  | slice_free
  deriving DecidableEq, Repr

/-- The record `DownloadResourceData` of `download-async.h`. The user data
pointers and the byte buffer carry no behaviour and are left out. -/
structure DownloadResourceData where
  loop : Bool
  uri : List Char
  path : List Char
  overwrite : Bool
  cancellable : Bool
  p_handler : Bool
  c_handler : Bool
  file : Bool
  output : Bool
  total_bytes : Nat
  downloaded_bytes : Nat
  last_progress_time : Nat
  deriving DecidableEq, Repr

/-- What one callback leaves behind: the record, whether it has been released
with `g_slice_free`, and the calls it made, in order. -/
structure CbResult where
  data : DownloadResourceData
  freed : Bool
  events : List Event
  deriving DecidableEq, Repr

/-- Events of `download_resource_data_free`: quit the loop, cancel and drop
the cancellable, drop the output stream, release the record. (The `g_free`
of the two strings and the unref of the `GFile` only touch memory.) -/
def download_resource_data_free (data : DownloadResourceData) : List Event :=
  (if data.loop then [Event.main_loop_quit] else []) ++
  (if data.cancellable then [Event.cancellable_cancel, Event.cancellable_unref] else []) ++
  (if data.output then [Event.output_unref] else []) ++
  [Event.slice_free]

/-- Callback `download_resource_from_uri_async_read_close_cb`. The argument
`close_ok` is the result of `g_input_stream_close_finish`; a failure is only
logged. -/
def download_resource_from_uri_async_read_close_cb
    (data : DownloadResourceData) (_close_ok : Bool) : CbResult :=
  let progress :=
    if data.p_handler then
      [Event.p_handler CallSite.read_close_cb data.downloaded_bytes data.total_bytes]
    else []
  let completion := if data.c_handler then [Event.c_handler] else []
  { data := data, freed := true,
    events := progress ++ completion ++ download_resource_data_free data }

/-- Answer of `g_input_stream_read_finish`: the `gssize` it returns and whether
it set the `GError`. -/
structure ReadFinish where
  nread : Int
  error : Bool
  deriving DecidableEq, Repr

/-- Answer of `g_output_stream_write_all`: its `gboolean` result, the byte count
stored in `n_written`, and whether it set the `GError`. -/
structure WriteAll where
  written : Bool
  n_written : Nat
  error : Bool
  deriving DecidableEq, Repr

/-- The test `g_get_monotonic_time () - data->last_progress_time > 1 * G_USEC_PER_SEC`:
the `gint64` reading is converted to `guint64` and the subtraction wraps. -/
def progress_due (now : Int) (last_progress_time : Nat) : Bool :=
  decide ((to_guint64 now + UINT64_MODULUS - last_progress_time % UINT64_MODULUS)
            % UINT64_MODULUS > 1 * G_USEC_PER_SEC)

/-- Callback `download_resource_from_uri_async_read_cb`. `now1` and `now2`
are the two readings of `g_get_monotonic_time` (the second is taken only when
the gate is open), `wa` is the answer of the write, used only when the write
is made. -/
def download_resource_from_uri_async_read_cb
    (data : DownloadResourceData) (rf : ReadFinish) (now1 now2 : Int)
    (wa : WriteAll) : CbResult :=
  let nread := to_guint64 rf.nread
  let due := progress_due now1 data.last_progress_time
  let progress :=
    if due && data.p_handler then
      [Event.p_handler (CallSite.read_cb now1) data.downloaded_bytes data.total_bytes]
    else []
  let data1 :=
    if due then { data with last_progress_time := to_guint64 now2 } else data
  if nread = to_guint64 (-1) ∨ nread = 0 ∨ rf.error = true then
    { data := data1, freed := false, events := progress ++ [Event.close_async] }
  else if data1.output then
    let data2 :=
      { data1 with
        downloaded_bytes := (data1.downloaded_bytes + wa.n_written) % UINT64_MODULUS }
    { data := data2, freed := false,
      events := progress ++ [Event.write_all nread wa.n_written] ++
        (if wa.written then [] else [Event.close_async]) ++ [Event.read_async] }
  else
    { data := data1, freed := false, events := progress ++ [Event.read_async] }

/-- Answer of `soup_request_send_finish` together with the value of
`soup_request_get_content_length` (a `goffset`, `-1` when unknown). -/
structure SendFinish where
  error : Bool
  content_length : Int
  deriving DecidableEq, Repr

/-- Answer of `g_file_replace`: whether a stream came back and whether the
`GError` was set. -/
structure FileReplace where
  stream : Bool
  error : Bool
  deriving DecidableEq, Repr

/-- Callback `download_resource_from_uri_async_cb`. -/
def download_resource_from_uri_async_cb
    (data : DownloadResourceData) (sf : SendFinish) (fr : FileReplace) : CbResult :=
  let data1 := { data with total_bytes := to_guint64 sf.content_length }
  if sf.error then
    { data := data1, freed := true, events := download_resource_data_free data1 }
  else
    let data2 := { data1 with output := fr.stream }
    if fr.error then
      { data := data2, freed := true,
        events := [Event.file_replace] ++ download_resource_data_free data2 }
    else
      { data := data2, freed := false, events := [Event.file_replace, Event.read_async] }

/-! ### File names (GLib helpers used by the entry point) -/

/-- Macro `G_IS_DIR_SEPARATOR` on Unix. -/
def is_dir_separator (c : Char) : Bool := c == '/'

/-- GLib `g_str_has_suffix (str, "/")`. -/
def has_slash_suffix (str : List Char) : Bool :=
  match str.reverse with
  | [] => false
  | c :: _ => is_dir_separator c

/-- GLib `g_path_get_basename` on Unix, after its reference manual: `"."` for
the empty string, `"/"` for a string of separators only, otherwise the last
component without trailing separators. -/
def g_path_get_basename (file_name : List Char) : List Char :=
  if file_name = [] then ['.']
  else
    let rev := file_name.reverse.dropWhile is_dir_separator
    if rev = [] then ['/']
    else (rev.takeWhile (fun c => !is_dir_separator c)).reverse

/-- Loop state of GLib `g_build_path_va`. -/
structure BuildPathState where
  result : List Char
  is_first : Bool
  have_leading : Bool
  single_element : Option (List Char)
  last_trailing : Option (List Char)
  deriving DecidableEq, Repr

/-- One round of the loop of GLib `g_build_path_va` with separator `"/"`. -/
def build_path_step (st : BuildPathState) (element : List Char) : BuildPathState :=
  if element = [] then st
  else
    let leading := element.takeWhile is_dir_separator
    let start := element.dropWhile is_dir_separator
    let body := (start.reverse.dropWhile is_dir_separator).reverse
    let trailing := element.reverse.takeWhile is_dir_separator
    let st1 : BuildPathState :=
      if st.have_leading then
        { st with single_element := none, last_trailing := some trailing }
      else
        { st with
          single_element := if start = [] then some element else st.single_element,
          result := st.result ++ leading,
          have_leading := true,
          last_trailing := some trailing }
    if body = [] then st1
    else
      { st1 with
        result := st1.result ++ (if st1.is_first then [] else ['/']) ++ body,
        is_first := false }

/-- GLib `g_build_filename` on Unix, applied to the elements that precede the
terminating `NULL`: adjacent elements are joined by exactly one separator, the
leading separators of the first and the trailing separators of the last
non-empty element are kept, empty elements are ignored. -/
def g_build_filename (elements : List (List Char)) : List Char :=
  let st := elements.foldl build_path_step
    { result := [], is_first := true, have_leading := false,
      single_element := none, last_trailing := none }
  match st.single_element with
  | some e => e
  | none => st.result ++ st.last_trailing.getD []

/-! ### Entry point -/

/-- Answers of the collaborators consulted by
`download_resource_from_uri_async_full` before the request is sent. -/
structure StartEnv where
  user_special_dir : Option (List Char)
  file_test : List Char → Bool
  query_exists : List Char → Bool
  request_error : Bool
  now : Int

/-- Lines 342 to 353 of `download-async.c`: `internal_path` before the
directory test, a copy of `path` or, for a `NULL` path, the downloads directory
joined with the basename of the uri. A `NULL` first element ends the argument
list of `g_build_filename`. -/
def default_internal_path (env : StartEnv) (uri : List Char)
    (path : Option (List Char)) : List Char :=
  match path with
  | some p => p
  | none =>
    match env.user_special_dir with
    | some dir => g_build_filename [dir, g_path_get_basename uri]
    | none => g_build_filename []

/-- Lines 342 to 366 of `download-async.c`: the value of `internal_path` handed
to `g_file_new_for_path`, with the `g_mkdir_with_parents` call made on the way. -/
def resolve_internal_path (env : StartEnv) (uri : List Char)
    (path : Option (List Char)) : List Char × List Event :=
  let internal_path := default_internal_path env uri path
  if has_slash_suffix internal_path then
    (g_build_filename [internal_path, g_path_get_basename uri],
     if env.file_test internal_path then [] else [Event.mkdir_with_parents internal_path])
  else (internal_path, [])

/-- Outcome of the entry point: the path of the `GFile` (when the argument
check passed), the calls made, and the record handed to
`soup_request_send_async` when the request was started. -/
structure FullResult where
  file : Option (List Char)
  events : List Event
  data : Option DownloadResourceData

/-- Function `download_resource_from_uri_async_full`, up to the point where it
enters `g_main_loop_run`. A `NULL` uri fails the `g_return_if_fail` check. -/
def download_resource_from_uri_async_full
    (env : StartEnv) (uri : Option (List Char)) (path : Option (List Char))
    (overwrite cancellable p_handler c_handler : Bool) : FullResult :=
  match uri with
  | none => { file := none, events := [], data := none }
  | some internal_uri =>
    let resolved := resolve_internal_path env internal_uri path
    let internal_path := resolved.1
    if !overwrite && env.query_exists internal_path then
      { file := some internal_path, events := resolved.2, data := none }
    else if env.request_error then
      { file := some internal_path,
        events := resolved.2 ++
          [Event.session_new, Event.session_request internal_uri,
           Event.cancellable_cancel, Event.cancellable_unref],
        data := none }
    else
      { file := some internal_path,
        events := resolved.2 ++
          [Event.session_new, Event.session_request internal_uri, Event.send_async],
        data := some
          { loop := true, uri := internal_uri, path := internal_path,
            overwrite := overwrite, cancellable := cancellable,
            p_handler := p_handler, c_handler := c_handler,
            file := true, output := false,
            total_bytes := 0, downloaded_bytes := 0,
            last_progress_time := to_guint64 env.now } }

/-! ### The main loop -/

/-- Asynchronous operations whose completion the main loop delivers. -/
inductive AsyncOp where
  | send
  | read
  | close
  deriving DecidableEq, Repr

/-- Asynchronous operations started by a list of calls. -/
def issued : List Event → List AsyncOp
  | [] => []
  | Event.send_async :: es => AsyncOp.send :: issued es
  | Event.read_async :: es => AsyncOp.read :: issued es
  | Event.close_async :: es => AsyncOp.close :: issued es
  | _ :: es => issued es

/-- A transfer in flight: its record, whether the record has been released,
the operations whose callback is still to come, and all calls made so far. -/
structure Session where
  data : DownloadResourceData
  freed : Bool
  pending : List AsyncOp
  trace : List Event
  deriving DecidableEq, Repr

/-- A completed asynchronous operation, with the collaborator answers its
callback will consume. -/
inductive Completion where
  | send (sf : SendFinish) (fr : FileReplace)
  | read (rf : ReadFinish) (now1 now2 : Int) (wa : WriteAll)
  | close (close_ok : Bool)
  deriving DecidableEq, Repr

/-- The operation a completion belongs to. -/
def Completion.op : Completion → AsyncOp
  | Completion.send _ _ => AsyncOp.send
  | Completion.read _ _ _ _ => AsyncOp.read
  | Completion.close _ => AsyncOp.close

/-- The callback registered for the operation, applied to the answers. -/
def Completion.callback (c : Completion) (data : DownloadResourceData) : CbResult :=
  match c with
  | Completion.send sf fr => download_resource_from_uri_async_cb data sf fr
  | Completion.read rf now1 now2 wa =>
    download_resource_from_uri_async_read_cb data rf now1 now2 wa
  | Completion.close close_ok => download_resource_from_uri_async_read_close_cb data close_ok

/-- One iteration of the main loop on a live record: deliver a completion to
its callback. Only an operation that is pending can complete. This is the
delivery while the record has not been released; what happens to a callback
still owed after the release is given by `deliver`. -/
def dispatch (s : Session) (c : Completion) : Option Session :=
  if s.freed = false ∧ c.op ∈ s.pending then
    let r := c.callback s.data
    some
      { data := r.data, freed := r.freed,
        pending := s.pending.erase c.op ++ issued r.events,
        trace := s.trace ++ r.events }
  else none

/-- A run of the main loop over a sequence of completions. -/
def run (s : Session) : List Completion → Option Session
  | [] => some s
  | c :: cs =>
    match dispatch s c with
    | none => none
    | some s1 => run s1 cs

/-- The transfer as it stands when `download_resource_from_uri_async_full`
enters the main loop; `none` when it returned before sending the request. -/
def start (env : StartEnv) (uri : Option (List Char)) (path : Option (List Char))
    (overwrite cancellable p_handler c_handler : Bool) : Option Session :=
  let r := download_resource_from_uri_async_full env uri path overwrite cancellable
    p_handler c_handler
  match r.data with
  | none => none
  | some data =>
    some { data := data, freed := false, pending := issued r.events, trace := r.events }

/-- Delivery of a completion whether or not the record is still live. GIO
calls the callback of every operation that was started, with the `user_data`
pointer it was given; nothing in the code withdraws an operation when the
record is released. A callback that is still owed after
`download_resource_data_free` therefore runs on the released record, taken
here with the contents it had at the release. -/
def deliver (s : Session) (c : Completion) : Option Session :=
  if c.op ∈ s.pending then
    let r := c.callback s.data
    some
      { data := r.data, freed := s.freed || r.freed,
        pending := s.pending.erase c.op ++ issued r.events,
        trace := s.trace ++ r.events }
  else none

/-! ### Observations on a trace -/

/-- Sum of the byte counts reported as written by the `write_all` calls. -/
def written_total : List Event → Nat
  | [] => 0
  | Event.write_all _ n_written :: es => n_written + written_total es
  | _ :: es => written_total es

/-- First argument of the successive progress handler invocations. -/
def progress_values : List Event → List Nat
  | [] => []
  | Event.p_handler _ downloaded_bytes _ :: es => downloaded_bytes :: progress_values es
  | _ :: es => progress_values es

/-- Clock readings at which the streaming step invoked the progress handler. -/
def stream_times : List Event → List Int
  | [] => []
  | Event.p_handler (CallSite.read_cb now) _ _ :: es => now :: stream_times es
  | _ :: es => stream_times es

/-- Whether a call is a progress handler invocation. -/
def is_progress : Event → Bool
  | Event.p_handler _ _ _ => true
  | _ => false

/-- Clock readings consumed by a sequence of completions, in order. -/
def clock_readings : List Completion → List Int
  | [] => []
  | Completion.read _ now1 now2 _ :: cs => now1 :: now2 :: clock_readings cs
  | _ :: cs => clock_readings cs

/-! ### The destination as the specification words it -/

/-- Path component of a URI (the part after `scheme://authority`, up to the
first `?` or `#`), the notion the specification uses for the file name. -/
def spec_uri_path_component (uri : List Char) : List Char :=
  let no_query := uri.takeWhile (fun c => !(c == '?' || c == '#'))
  let after_scheme :=
    match no_query.dropWhile (fun c => !(c == ':')) with
    | ':' :: rest => rest
    | _ => no_query
  match after_scheme with
  | '/' :: '/' :: rest => rest.dropWhile (fun c => !(c == '/'))
  | other => other

/-- Destination as the specification states it: the file name is the basename
of the path component of the URI. -/
def spec_destination (downloads : List Char) (uri : List Char)
    (path : Option (List Char)) : List Char :=
  match path with
  | none => g_build_filename [downloads, g_path_get_basename (spec_uri_path_component uri)]
  | some p =>
    if has_slash_suffix p then
      g_build_filename [p, g_path_get_basename (spec_uri_path_component uri)]
    else p

/-! ### Sample inputs -/

/-- A host whose downloads directory is `/home/u/Downloads`, where no file
exists yet and the URI parses; the clock reads `5`. -/
def sample_env : StartEnv :=
  { user_special_dir := some "/home/u/Downloads".toList,
    file_test := fun _ => false,
    query_exists := fun _ => false,
    request_error := false,
    now := 5 }

/-- The host of `sample_env` on which every destination already exists. -/
def occupied_env : StartEnv :=
  { sample_env with query_exists := fun _ => true }

/-- URI used by the sample runs. -/
def sample_uri : List Char := "https://example.test/file.bin".toList

/-- URI with a query string. -/
def query_uri : List Char := "https://example.test/file.bin?v=1".toList

/-- Sample answers: the request succeeds with a length of 100000, then a chunk
of 100 bytes is read of which the write stores 40 before failing. -/
def short_write_run : List Completion :=
  [Completion.send ⟨false, 100000⟩ ⟨true, false⟩,
   Completion.read ⟨100, false⟩ 7 8 ⟨false, 40, true⟩]

/-- Sample answers: a chunk of 100 bytes is read and written, the stream then
ends and is closed. -/
def full_run : List Completion :=
  [Completion.send ⟨false, 100⟩ ⟨true, false⟩,
   Completion.read ⟨100, false⟩ 2000000 2000001 ⟨true, 100, false⟩,
   Completion.read ⟨0, false⟩ 4000000 4000001 ⟨true, 0, false⟩]

/-- Whether every write answered in a sequence of completions succeeded. -/
def all_written : List Completion → Bool
  | [] => true
  | Completion.read _ _ _ wa :: cs => wa.written && all_written cs
  | _ :: cs => all_written cs

/-- State of the caller's cancellation token after a list of calls, given
whether the caller had cancelled it: `g_cancellable_cancel` sets it and nothing
in the code resets it. -/
def token_cancelled (caller_cancelled : Bool) : List Event → Bool
  | [] => caller_cancelled
  | Event.cancellable_cancel :: _ => true
  | _ :: es => token_cancelled caller_cancelled es

/-- Sample answers: the stream is at its end on the first read. -/
def end_of_stream : ReadFinish := ⟨0, false⟩

/-- Sample answers: the read that the failed write of `short_write_run` left
pending completes two seconds later with an error. -/
def stray_read : Completion :=
  Completion.read ⟨-1, true⟩ 2000000 2000001 ⟨true, 0, false⟩

/-! ### Invariants -/

/-- Invariant of the byte counter: it is the sum of the bytes written modulo
`2 ^ 64`, and as long as that sum has not wrapped the values reported to the
progress handler are non-decreasing and bounded by it. -/
def counter_inv (s : Session) : Prop :=
  s.data.downloaded_bytes = written_total s.trace % UINT64_MODULUS ∧
  (written_total s.trace < UINT64_MODULUS →
    List.Pairwise (fun a b => a ≤ b) (progress_values s.trace) ∧
    ∀ v ∈ progress_values s.trace, v ≤ written_total s.trace)

/-- Invariant of the one second gate, relative to the reading `t0` stored at
the start and to the latest reading `lo` taken so far. -/
def gate_inv (t0 : Int) (s : Session) (lo : Int) : Prop :=
  lo < 9223372036854775808 ∧
  (s.data.last_progress_time : Int) ≤ lo ∧
  (∀ t ∈ t0 :: stream_times s.trace, t ≤ (s.data.last_progress_time : Int)) ∧
  List.Chain (fun x y => x + 1000000 < y) t0 (stream_times s.trace)

/-- Invariant of a transfer none of whose writes failed: while the record is
live exactly one operation is pending, and when that is the close, its issue
is the last call made. -/
def single_pending (s : Session) : Prop :=
  s.freed = false →
    s.pending = [AsyncOp.send] ∨ s.pending = [AsyncOp.read] ∨
    (s.pending = [AsyncOp.close] ∧ ∃ pre, s.trace = pre ++ [Event.close_async])

/-! ### Basic facts about traces and the main loop -/

theorem written_total_append (l1 l2 : List Event) :
    written_total (l1 ++ l2) = written_total l1 + written_total l2 := by
  induction l1 with
  | nil => simp [written_total]
  | cons e es ih =>
    cases e <;> simp [written_total, ih]
    omega

theorem progress_values_append (l1 l2 : List Event) :
    progress_values (l1 ++ l2) = progress_values l1 ++ progress_values l2 := by
  induction l1 with
  | nil => simp [progress_values]
  | cons e es ih => cases e <;> simp [progress_values, ih]

theorem stream_times_append (l1 l2 : List Event) :
    stream_times (l1 ++ l2) = stream_times l1 ++ stream_times l2 := by
  induction l1 with
  | nil => simp [stream_times]
  | cons e es ih =>
    cases e with
    | p_handler site d t => cases site <;> simp [stream_times, ih]
    | _ => simp [stream_times, ih]

theorem dispatch_eq_some {s s1 : Session} {c : Completion} (h : dispatch s c = some s1) :
    s.freed = false ∧ c.op ∈ s.pending ∧
      s1.data = (c.callback s.data).data ∧ s1.freed = (c.callback s.data).freed ∧
      s1.pending = s.pending.erase c.op ++ issued (c.callback s.data).events ∧
      s1.trace = s.trace ++ (c.callback s.data).events := by
  unfold dispatch at h
  split at h
  · rename_i hc
    simp only [Option.some.injEq] at h
    subst h
    exact ⟨hc.1, hc.2, rfl, rfl, rfl, rfl⟩
  · simp at h

theorem dispatch_freed (s : Session) (c : Completion) (h : s.freed = true) :
    dispatch s c = none := by
  simp [dispatch, h]

/-- An invariant kept by every delivery holds along every run. -/
theorem run_induction (P : Session → Prop)
    (step : ∀ s c s1, P s → dispatch s c = some s1 → P s1) :
    ∀ (cs : List Completion) (s s1 : Session), P s → run s cs = some s1 → P s1 := by
  intro cs
  induction cs with
  | nil =>
    intro s s1 hs h
    simp only [run, Option.some.injEq] at h
    exact h ▸ hs
  | cons c cs ih =>
    intro s s1 hs h
    simp only [run] at h
    cases hd : dispatch s c with
    | none => simp [hd] at h
    | some s2 =>
      simp only [hd] at h
      exact ih s2 s1 (step s c s2 hs hd) h

theorem issued_append (l1 l2 : List Event) :
    issued (l1 ++ l2) = issued l1 ++ issued l2 := by
  induction l1 with
  | nil => simp [issued]
  | cons e es ih => cases e <;> simp [issued, ih]

theorem issued_resolve (env : StartEnv) (uri : List Char) (path : Option (List Char)) :
    issued (resolve_internal_path env uri path).2 = [] := by
  unfold resolve_internal_path
  simp only
  split_ifs <;> simp [issued]

theorem run_append_single {s0 s s1 : Session} {cs : List Completion} {c : Completion}
    (hrun : run s0 cs = some s) (hd : dispatch s c = some s1) :
    run s0 (cs ++ [c]) = some s1 := by
  induction cs generalizing s0 with
  | nil =>
    simp only [run, Option.some.injEq] at hrun
    subst hrun
    simp [run, hd]
  | cons c1 cs ih =>
    simp only [run, List.cons_append] at hrun ⊢
    cases h1 : dispatch s0 c1 with
    | none => simp [h1] at hrun
    | some s2 =>
      simp only [h1] at hrun ⊢
      exact ih hrun

theorem start_eq_some {env : StartEnv} {uri : Option (List Char)}
    {path : Option (List Char)} {overwrite cancellable p_handler c_handler : Bool}
    {s0 : Session}
    (h : start env uri path overwrite cancellable p_handler c_handler = some s0) :
    ∃ u, uri = some u ∧
      s0.trace = (resolve_internal_path env u path).2 ++
        [Event.session_new, Event.session_request u, Event.send_async] ∧
      s0.pending = [AsyncOp.send] ∧ s0.freed = false ∧
      s0.data.downloaded_bytes = 0 ∧ s0.data.total_bytes = 0 ∧
      s0.data.output = false ∧
      s0.data.p_handler = p_handler ∧ s0.data.c_handler = c_handler ∧
      s0.data.last_progress_time = to_guint64 env.now := by
  cases uri with
  | none => simp [start, download_resource_from_uri_async_full] at h
  | some u =>
    refine ⟨u, rfl, ?_⟩
    by_cases h1 : (!overwrite && env.query_exists (resolve_internal_path env u path).1) = true
    · simp [start, download_resource_from_uri_async_full, h1] at h
    · by_cases h2 : env.request_error = true
      · simp [start, download_resource_from_uri_async_full, h1, h2] at h
      · simp only [start, download_resource_from_uri_async_full, h1, h2, if_false,
          Bool.false_eq_true, Option.some.injEq] at h
        subst h
        simp [issued_append, issued_resolve, issued]

theorem written_total_free (data : DownloadResourceData) :
    written_total (download_resource_data_free data) = 0 := by
  unfold download_resource_data_free
  split_ifs <;> simp [written_total]

theorem progress_values_free (data : DownloadResourceData) :
    progress_values (download_resource_data_free data) = [] := by
  unfold download_resource_data_free
  split_ifs <;> simp [progress_values]

theorem stream_times_free (data : DownloadResourceData) :
    stream_times (download_resource_data_free data) = [] := by
  unfold download_resource_data_free
  split_ifs <;> simp [stream_times]

/-- Every callback moves `downloaded_bytes` by the bytes its writes reported,
modulo `2 ^ 64`. -/
theorem callback_written (c : Completion) (data : DownloadResourceData) (T : Nat)
    (h : data.downloaded_bytes = T % UINT64_MODULUS) :
    (c.callback data).data.downloaded_bytes =
      (T + written_total (c.callback data).events) % UINT64_MODULUS := by
  cases c with
  | send sf fr =>
    simp only [Completion.callback, download_resource_from_uri_async_cb]
    split_ifs <;> simp [written_total_append, written_total_free, written_total, h]
  | read rf now1 now2 wa =>
    simp only [Completion.callback, download_resource_from_uri_async_read_cb]
    split_ifs <;>
      simp [written_total_append, written_total, h, UINT64_MODULUS]
  | close ok =>
    simp only [Completion.callback, download_resource_from_uri_async_read_close_cb]
    split_ifs <;> simp [written_total_append, written_total_free, written_total, h]

/-- The calls made before the main loop is entered write nothing and invoke no
handler. -/
theorem start_trace_quiet {env : StartEnv} {uri : Option (List Char)}
    {path : Option (List Char)} {overwrite cancellable p_handler c_handler : Bool}
    {s0 : Session}
    (h : start env uri path overwrite cancellable p_handler c_handler = some s0) :
    written_total s0.trace = 0 ∧ progress_values s0.trace = [] ∧
      stream_times s0.trace = [] := by
  obtain ⟨u, -, ht, -⟩ := start_eq_some h
  rw [ht]
  unfold resolve_internal_path
  simp only
  split_ifs <;> simp [written_total, progress_values, stream_times]

/-- A callback reports the value `downloaded_bytes` had when it was entered. -/
theorem callback_progress_values (c : Completion) (data : DownloadResourceData) :
    ∀ v ∈ progress_values (c.callback data).events, v = data.downloaded_bytes := by
  cases c with
  | send sf fr =>
    simp only [Completion.callback, download_resource_from_uri_async_cb]
    split_ifs <;> simp [progress_values_append, progress_values_free, progress_values]
  | read rf now1 now2 wa =>
    simp only [Completion.callback, download_resource_from_uri_async_read_cb]
    split_ifs <;> simp [progress_values_append, progress_values]
  | close ok =>
    simp only [Completion.callback, download_resource_from_uri_async_read_close_cb]
    split_ifs <;> simp [progress_values_append, progress_values_free, progress_values]

theorem counter_inv_dispatch (s : Session) (c : Completion) (s1 : Session)
    (hs : counter_inv s) (hd : dispatch s c = some s1) : counter_inv s1 := by
  obtain ⟨-, -, hdata, -, -, htrace⟩ := dispatch_eq_some hd
  obtain ⟨hcount, hprog⟩ := hs
  have hw := callback_written c s.data (written_total s.trace) hcount
  have hv := callback_progress_values c s.data
  refine ⟨?_, ?_⟩
  · rw [hdata, htrace, written_total_append]
    exact hw
  · intro hlt
    rw [htrace, written_total_append] at hlt
    have hlt0 : written_total s.trace < UINT64_MODULUS := by omega
    obtain ⟨hpair, hbound⟩ := hprog hlt0
    have hdb : s.data.downloaded_bytes = written_total s.trace := by
      rw [hcount]
      exact Nat.mod_eq_of_lt hlt0
    rw [htrace, written_total_append, progress_values_append]
    refine ⟨List.pairwise_append.mpr ⟨hpair, ?_, ?_⟩, ?_⟩
    · apply List.pairwise_of_forall_mem_list
      intro a ha b hb
      rw [hv a ha, hv b hb]
    · intro a ha b hb
      rw [hv b hb, hdb]
      exact hbound a ha
    · intro v hmem
      rcases List.mem_append.mp hmem with h1 | h2
      · have := hbound v h1
        omega
      · rw [hv v h2, hdb]
        omega

theorem counter_inv_start {env : StartEnv} {uri : Option (List Char)}
    {path : Option (List Char)} {overwrite cancellable p_handler c_handler : Bool}
    {s0 : Session}
    (h : start env uri path overwrite cancellable p_handler c_handler = some s0) :
    counter_inv s0 := by
  obtain ⟨hw, hp, -⟩ := start_trace_quiet h
  obtain ⟨u, -, -, -, -, hdb, -⟩ := start_eq_some h
  simp [counter_inv, hw, hp, hdb]

/-- A read of between 1 and 16384 bytes without error passes the end test of
the streaming step. -/
theorem positive_read_continues (rf : ReadFinish) (herr : rf.error = false)
    (hpos : 0 < rf.nread) (hle : rf.nread ≤ 16384) :
    to_guint64 rf.nread = rf.nread.toNat ∧
    ¬ (to_guint64 rf.nread = to_guint64 (-1) ∨ to_guint64 rf.nread = 0 ∨
        rf.error = true) := by
  refine ⟨?_, ?_⟩
  · unfold to_guint64
    omega
  · rw [herr]
    unfold to_guint64
    simp
    omega

/-- The streaming step when the read does not end the stream and the output
stream is there: the calls it makes and the counters it leaves. -/
theorem read_cb_streams (data : DownloadResourceData) (rf : ReadFinish)
    (now1 now2 : Int) (wa : WriteAll)
    (hend : ¬ (to_guint64 rf.nread = to_guint64 (-1) ∨ to_guint64 rf.nread = 0 ∨
        rf.error = true))
    (hout : data.output = true) :
    (download_resource_from_uri_async_read_cb data rf now1 now2 wa).events =
      (if progress_due now1 data.last_progress_time && data.p_handler then
        [Event.p_handler (CallSite.read_cb now1) data.downloaded_bytes data.total_bytes]
       else []) ++ [Event.write_all (to_guint64 rf.nread) wa.n_written] ++
      (if wa.written then [] else [Event.close_async]) ++ [Event.read_async] ∧
    (download_resource_from_uri_async_read_cb data rf now1 now2 wa).data.downloaded_bytes =
      (data.downloaded_bytes + wa.n_written) % UINT64_MODULUS ∧
    (download_resource_from_uri_async_read_cb data rf now1 now2 wa).data.total_bytes =
      data.total_bytes := by
  unfold download_resource_from_uri_async_read_cb
  simp only [if_neg hend]
  by_cases hdue : progress_due now1 data.last_progress_time = true <;>
    simp [hdue, hout]

/-- No callback changes the handlers installed at the start. -/
theorem callback_handlers (c : Completion) (data : DownloadResourceData) :
    (c.callback data).data.p_handler = data.p_handler ∧
    (c.callback data).data.c_handler = data.c_handler := by
  cases c with
  | send sf fr =>
    simp only [Completion.callback, download_resource_from_uri_async_cb]
    split_ifs <;> simp
  | read rf now1 now2 wa =>
    simp only [Completion.callback, download_resource_from_uri_async_read_cb]
    split_ifs <;> simp
  | close ok =>
    simp [Completion.callback, download_resource_from_uri_async_read_close_cb]

theorem run_handlers {env : StartEnv} {uri : Option (List Char)}
    {path : Option (List Char)} {overwrite cancellable p_handler c_handler : Bool}
    {s0 : Session}
    (h0 : start env uri path overwrite cancellable p_handler c_handler = some s0)
    (cs : List Completion) (s : Session) (hrun : run s0 cs = some s) :
    s.data.p_handler = p_handler ∧ s.data.c_handler = c_handler := by
  refine run_induction
    (fun t => t.data.p_handler = p_handler ∧ t.data.c_handler = c_handler)
    ?_ cs s0 s ?_ hrun
  · intro t c t1 ht hd
    obtain ⟨-, -, hdata, -⟩ := dispatch_eq_some hd
    have hc := callback_handlers c t.data
    rw [hdata, hc.1, hc.2]
    exact ht
  · obtain ⟨u, -, -, -, -, -, -, -, hp, hc, -⟩ := start_eq_some h0
    exact ⟨hp, hc⟩

theorem free_not_progress (data : DownloadResourceData) :
    ∀ e ∈ download_resource_data_free data, is_progress e = false := by
  unfold download_resource_data_free
  split_ifs <;> simp [is_progress]

/-- With a clock that has not gone back since `last_progress_time` was stored,
the wrapping test of the streaming step is the plain comparison. -/
theorem progress_due_iff (now : Int) (last : Nat) (hlast : (last : Int) ≤ now)
    (hnow : now < 9223372036854775808) :
    progress_due now last = true ↔ now - (last : Int) > 1000000 := by
  unfold progress_due to_guint64 UINT64_MODULUS G_USEC_PER_SEC
  simp only [decide_eq_true_eq]
  omega

/-- What the streaming step does to the one second gate: it reports at `now1`
when the gate is open and a handler is installed, and stores `now2` when the
gate is open. -/
theorem read_cb_gate (data : DownloadResourceData) (rf : ReadFinish)
    (now1 now2 : Int) (wa : WriteAll) :
    stream_times (download_resource_from_uri_async_read_cb data rf now1 now2 wa).events =
      (if progress_due now1 data.last_progress_time && data.p_handler then [now1]
       else []) ∧
    (download_resource_from_uri_async_read_cb data rf now1 now2 wa).data.last_progress_time =
      (if progress_due now1 data.last_progress_time then to_guint64 now2
       else data.last_progress_time) := by
  unfold download_resource_from_uri_async_read_cb
  by_cases hdue : progress_due now1 data.last_progress_time = true <;>
    by_cases hp : data.p_handler = true <;>
    (simp only [hdue, hp]; split_ifs <;> simp [stream_times_append, stream_times])

/-- The request callback and the close callback leave the gate alone. -/
theorem other_cb_gate (c : Completion) (data : DownloadResourceData)
    (hc : c.op ≠ AsyncOp.read) :
    stream_times (c.callback data).events = [] ∧
    (c.callback data).data.last_progress_time = data.last_progress_time := by
  cases c with
  | send sf fr =>
    simp only [Completion.callback, download_resource_from_uri_async_cb]
    split_ifs <;> simp [stream_times_append, stream_times_free, stream_times]
  | read rf now1 now2 wa => simp [Completion.op] at hc
  | close ok =>
    simp only [Completion.callback, download_resource_from_uri_async_read_close_cb]
    split_ifs <;> simp [stream_times_append, stream_times_free, stream_times]

theorem chain_gap_snoc (a : Int) (l : List Int) (b : Int)
    (h : List.Chain (fun x y => x + 1000000 < y) a l)
    (hb : ∀ t ∈ a :: l, t + 1000000 < b) :
    List.Chain (fun x y => x + 1000000 < y) a (l ++ [b]) := by
  induction l generalizing a with
  | nil =>
    simp only [List.nil_append, List.chain_cons, List.Chain.nil, and_true]
    exact hb a (by simp)
  | cons x l ih =>
    simp only [List.cons_append, List.chain_cons] at h ⊢
    refine ⟨h.1, ih x h.2 ?_⟩
    intro t ht
    exact hb t (List.mem_cons_of_mem a ht)

theorem gate_inv_read (t0 : Int) (s s1 : Session) (lo : Int) (rf : ReadFinish)
    (now1 now2 : Int) (wa : WriteAll) (hs : gate_inv t0 s lo)
    (h1 : lo ≤ now1) (h2 : now1 ≤ now2) (h3 : now2 < 9223372036854775808)
    (hd : dispatch s (Completion.read rf now1 now2 wa) = some s1) :
    gate_inv t0 s1 now2 := by
  obtain ⟨-, -, hdata, -, -, htrace⟩ := dispatch_eq_some hd
  obtain ⟨hlo, hlast, hle, hchain⟩ := hs
  obtain ⟨htimes, hlpt⟩ := read_cb_gate s.data rf now1 now2 wa
  have hiff := progress_due_iff now1 s.data.last_progress_time (by omega) (by omega)
  have h0 : 0 ≤ now2 := by
    have := Int.ofNat_nonneg s.data.last_progress_time
    omega
  have hconv : ((to_guint64 now2 : Nat) : Int) = now2 := by
    unfold to_guint64
    omega
  simp only [Completion.callback] at hdata htrace
  by_cases hdue : progress_due now1 s.data.last_progress_time = true
  · have hgap := hiff.mp hdue
    simp only [hdue, if_true] at hlpt
    have hl1 : (s1.data.last_progress_time : Int) = now2 := by
      rw [hdata, hlpt]
      exact hconv
    refine ⟨h3, by omega, ?_, ?_⟩
    · intro t ht
      rw [hl1]
      rw [htrace, stream_times_append, htimes] at ht
      simp only [hdue, Bool.true_and] at ht
      rcases List.mem_cons.mp ht with h | h
      · have := hle t (by simp [h])
        omega
      · rcases List.mem_append.mp h with h | h
        · have := hle t (List.mem_cons_of_mem _ h)
          omega
        · split_ifs at h <;> simp at h
          omega
    · rw [htrace, stream_times_append, htimes]
      simp only [hdue, Bool.true_and]
      split_ifs
      · apply chain_gap_snoc _ _ _ hchain
        intro t ht
        have := hle t ht
        omega
      · simpa using hchain
  · simp only [hdue, Bool.false_eq_true, if_false] at hlpt
    have hl1 : s1.data.last_progress_time = s.data.last_progress_time := by
      rw [hdata, hlpt]
    have ht1 : stream_times s1.trace = stream_times s.trace := by
      rw [htrace, stream_times_append, htimes]
      simp [hdue]
    rw [gate_inv, hl1, ht1]
    exact ⟨h3, by omega, hle, hchain⟩

theorem gate_inv_other (t0 : Int) (s s1 : Session) (lo : Int) (c : Completion)
    (hs : gate_inv t0 s lo) (hc : c.op ≠ AsyncOp.read)
    (hd : dispatch s c = some s1) : gate_inv t0 s1 lo := by
  obtain ⟨-, -, hdata, -, -, htrace⟩ := dispatch_eq_some hd
  obtain ⟨htimes, hlpt⟩ := other_cb_gate c s.data hc
  have hl1 : s1.data.last_progress_time = s.data.last_progress_time := by
    rw [hdata, hlpt]
  have ht1 : stream_times s1.trace = stream_times s.trace := by
    rw [htrace, stream_times_append, htimes]
    simp
  rw [gate_inv, hl1, ht1]
  exact hs

theorem gate_inv_run (t0 : Int) :
    ∀ (cs : List Completion) (s s1 : Session) (lo : Int), gate_inv t0 s lo →
      List.Chain (fun a b => a ≤ b) lo (clock_readings cs) →
      (∀ t ∈ clock_readings cs, t < 9223372036854775808) →
      run s cs = some s1 →
      gate_inv t0 s1 ((clock_readings cs).getLastD lo) := by
  intro cs
  induction cs with
  | nil =>
    intro s s1 lo hs _ _ hrun
    simp only [run, Option.some.injEq] at hrun
    subst hrun
    simpa [clock_readings] using hs
  | cons c cs ih =>
    intro s s1 lo hs hmono hrange hrun
    simp only [run] at hrun
    cases hd : dispatch s c with
    | none => simp [hd] at hrun
    | some s2 =>
      simp only [hd] at hrun
      cases c with
      | read rf now1 now2 wa =>
        simp only [clock_readings, List.chain_cons] at hmono
        simp only [clock_readings, List.mem_cons, forall_eq_or_imp] at hrange
        have hs2 := gate_inv_read t0 s s2 lo rf now1 now2 wa hs hmono.1 hmono.2.1
          hrange.2.1 hd
        have hfin := ih s2 s1 now2 hs2 hmono.2.2 hrange.2.2 hrun
        have hlast : (clock_readings (Completion.read rf now1 now2 wa :: cs)).getLastD lo
            = (clock_readings cs).getLastD now2 := by
          cases hcr : clock_readings cs <;> simp [clock_readings, hcr, List.getLastD]
        rw [hlast]
        exact hfin
      | send sf fr =>
        have hs2 := gate_inv_other t0 s s2 lo _ hs (by simp [Completion.op]) hd
        simp only [clock_readings] at hmono hrange ⊢
        exact ih s2 s1 lo hs2 hmono hrange hrun
      | close ok =>
        have hs2 := gate_inv_other t0 s s2 lo _ hs (by simp [Completion.op]) hd
        simp only [clock_readings] at hmono hrange ⊢
        exact ih s2 s1 lo hs2 hmono hrange hrun

theorem mem_stream_times (l : List Event) (t : Int) :
    t ∈ stream_times l ↔ ∃ d tb, Event.p_handler (CallSite.read_cb t) d tb ∈ l := by
  induction l with
  | nil => simp [stream_times]
  | cons e es ih =>
    cases e with
    | p_handler site d tb =>
      cases site with
      | read_cb now =>
        simp only [stream_times, List.mem_cons, ih, Event.p_handler.injEq,
          CallSite.read_cb.injEq]
        constructor
        · rintro (h | ⟨d1, t1, h⟩)
          · exact ⟨d, tb, Or.inl ⟨h, rfl, rfl⟩⟩
          · exact ⟨d1, t1, Or.inr h⟩
        · rintro ⟨d1, t1, h | h⟩
          · exact Or.inl h.1
          · exact Or.inr ⟨d1, t1, h⟩
      | read_close_cb => simp [stream_times, ih]
    | _ => simp [stream_times, ih]

/-- Before the request is sent the only call besides those of libsoup is the
creation of the target directory. -/
theorem resolve_events_mkdir (env : StartEnv) (uri : List Char)
    (path : Option (List Char)) :
    ∀ e ∈ (resolve_internal_path env uri path).2,
      ∃ dir, e = Event.mkdir_with_parents dir := by
  intro e he
  unfold resolve_internal_path at he
  simp only at he
  split_ifs at he <;> simp at he
  exact ⟨_, he⟩

theorem mem_free (data : DownloadResourceData) (e : Event)
    (he : e ∈ download_resource_data_free data) :
    e = Event.main_loop_quit ∨ e = Event.cancellable_cancel ∨
      e = Event.cancellable_unref ∨ e = Event.output_unref ∨ e = Event.slice_free := by
  unfold download_resource_data_free at he
  split_ifs at he <;> simp at he <;> tauto

theorem issued_free (data : DownloadResourceData) :
    issued (download_resource_data_free data) = [] := by
  unfold download_resource_data_free
  split_ifs <;> simp [issued]

theorem single_pending_dispatch (s s1 : Session) (c : Completion)
    (hs : single_pending s) (hd : dispatch s c = some s1)
    (hw : ∀ rf now1 now2 wa, c = Completion.read rf now1 now2 wa → wa.written = true) :
    single_pending s1 := by
  obtain ⟨hfreed, hmem, -, hfreed1, hpend, htrace⟩ := dispatch_eq_some hd
  have herase : s.pending.erase c.op = [] := by
    rcases hs hfreed with h | h | ⟨h, -⟩ <;>
      (rw [h] at hmem ⊢
       simp only [List.mem_singleton] at hmem
       rw [hmem]
       simp)
  rw [herase, List.nil_append] at hpend
  intro hlive
  rw [hfreed1] at hlive
  cases c with
  | send sf fr =>
    simp only [Completion.callback, download_resource_from_uri_async_cb] at hlive hpend
    split_ifs at hlive hpend
    right
    left
    rw [hpend]
    simp [issued]
  | read rf now1 now2 wa =>
    have hwa := hw rf now1 now2 wa rfl
    simp only [Completion.callback, download_resource_from_uri_async_read_cb, hwa, if_true,
      List.append_nil] at hpend htrace
    split_ifs at hpend htrace
    all_goals first
      | (right; right
         refine ⟨by rw [hpend]; simp [issued_append, issued], ?_⟩
         rw [htrace, ← List.append_assoc]
         exact ⟨_, rfl⟩)
      | (right; left
         rw [hpend]
         simp [issued_append, issued])
  | close ok =>
    simp [Completion.callback, download_resource_from_uri_async_read_close_cb] at hlive

theorem single_pending_run :
    ∀ (cs : List Completion) (s s1 : Session), single_pending s →
      all_written cs = true → run s cs = some s1 → single_pending s1 := by
  intro cs
  induction cs with
  | nil =>
    intro s s1 hs _ hrun
    simp only [run, Option.some.injEq] at hrun
    exact hrun ▸ hs
  | cons c cs ih =>
    intro s s1 hs hall hrun
    simp only [run] at hrun
    cases hd : dispatch s c with
    | none => simp [hd] at hrun
    | some s2 =>
      simp only [hd] at hrun
      have hrest : all_written cs = true := by
        cases c <;> simp_all [all_written]
      refine ih s2 s1 (single_pending_dispatch s s2 c hs hd ?_) hrest hrun
      intro rf now1 now2 wa hc
      subst hc
      simp_all [all_written]

/-! ### Completion handler on the failure paths of the request -/

/-- C1: evaluation of the code where the claim fails. A transfer started with a
completion handler reaches its terminal cleanup without the completion handler
ever being invoked, both when sending the request fails and when opening the
destination fails; nothing can be delivered afterwards. -/
theorem C1_request_failure_skips_completion :
    ∃ s0 s1 s2,
      start sample_env (some sample_uri) none true true true true = some s0 ∧
      s0.data.c_handler = true ∧
      run s0 [Completion.send ⟨true, -1⟩ ⟨false, false⟩] = some s1 ∧
      s1.freed = true ∧ s1.pending = [] ∧ Event.slice_free ∈ s1.trace ∧
      Event.c_handler ∉ s1.trace ∧
      run s0 [Completion.send ⟨false, 100000⟩ ⟨false, true⟩] = some s2 ∧
      s2.freed = true ∧ s2.pending = [] ∧ Event.slice_free ∈ s2.trace ∧
      Event.c_handler ∉ s2.trace := by
  refine ⟨_, _, _, rfl, ?_, rfl, ?_, ?_, ?_, ?_, rfl, ?_, ?_, ?_, ?_⟩ <;> decide

/-! ### Pre-flight check of the destination -/

/-- C2: with `overwrite` false and the resolved destination already present,
the entry point returns before the session is created: no session, no request,
no send, no handler invocation, no open of or write to the destination occur,
the only call it can have made is the creation of the target directory, and no
transfer is handed to the main loop. -/
theorem C2_existing_destination_aborts (env : StartEnv) (uri : List Char)
    (path : Option (List Char)) (cancellable p_handler c_handler : Bool)
    (hexists : env.query_exists (resolve_internal_path env uri path).1 = true) :
    let r := download_resource_from_uri_async_full env (some uri) path false cancellable
      p_handler c_handler
    r.data = none ∧
    start env (some uri) path false cancellable p_handler c_handler = none ∧
    (∀ e ∈ r.events, ∃ dir, e = Event.mkdir_with_parents dir) ∧
    Event.session_new ∉ r.events ∧ Event.session_request uri ∉ r.events ∧
    Event.send_async ∉ r.events ∧ Event.file_replace ∉ r.events ∧
    Event.c_handler ∉ r.events ∧
    (∀ site d t, Event.p_handler site d t ∉ r.events) ∧
    (∀ n k, Event.write_all n k ∉ r.events) := by
  have hev := resolve_events_mkdir env uri path
  have hr : download_resource_from_uri_async_full env (some uri) path false cancellable
      p_handler c_handler =
      { file := some (resolve_internal_path env uri path).1,
        events := (resolve_internal_path env uri path).2, data := none } := by
    simp [download_resource_from_uri_async_full, hexists]
  simp only [start, hr]
  refine ⟨trivial, trivial, hev, ?_, ?_, ?_, ?_, ?_, ?_, ?_⟩
  all_goals
    intros
    intro hmem
    obtain ⟨dir, hd⟩ := hev _ hmem
    cases hd

/-- C2 witness: the sample host on which the destination is taken. -/
theorem C2_existing_destination_aborts_witness :
    occupied_env.query_exists
        (resolve_internal_path occupied_env sample_uri (some "/tmp/out/".toList)).1 = true ∧
    (download_resource_from_uri_async_full occupied_env (some sample_uri)
        (some "/tmp/out/".toList) false true true true).data = none ∧
    start occupied_env (some sample_uri) (some "/tmp/out/".toList) false true true true
      = none :=
  ⟨rfl,
   (C2_existing_destination_aborts occupied_env sample_uri (some "/tmp/out/".toList)
      true true true rfl).1,
   (C2_existing_destination_aborts occupied_env sample_uri (some "/tmp/out/".toList)
      true true true rfl).2.1⟩

/-! ### Resolution of the destination -/

/-- C3, as stated, fails: for a URI with a query string and no path the code
names the file after the basename of the whole URI string, `file.bin?v=1`,
where the claim has the basename of the path component, `file.bin`. -/
theorem C3_counterexample_query_string :
    (download_resource_from_uri_async_full sample_env (some query_uri) none
        true true true true).file
      = some "/home/u/Downloads/file.bin?v=1".toList ∧
    spec_destination "/home/u/Downloads".toList query_uri none
      = "/home/u/Downloads/file.bin".toList ∧
    (download_resource_from_uri_async_full sample_env (some query_uri) none
        true true true true).file
      ≠ some (spec_destination "/home/u/Downloads".toList query_uri none) := by
  refine ⟨?_, ?_, ?_⟩ <;> decide

/-- C3, amended: the destination is the path as given when it does not end in
`/`; the path joined with the basename of the whole URI string when it ends in
`/`; and for an absent path the downloads directory joined with the basename of
the whole URI string, joined with that basename once more should the result
itself end in `/`. -/
theorem C3_destination_resolution (env : StartEnv) (uri : List Char)
    (path : Option (List Char)) (overwrite cancellable p_handler c_handler : Bool) :
    let file := (download_resource_from_uri_async_full env (some uri) path overwrite
      cancellable p_handler c_handler).file
    (∀ p, path = some p → has_slash_suffix p = false → file = some p) ∧
    (∀ p, path = some p → has_slash_suffix p = true →
      file = some (g_build_filename [p, g_path_get_basename uri])) ∧
    (∀ dir, path = none → env.user_special_dir = some dir →
      file = some
        (if has_slash_suffix (g_build_filename [dir, g_path_get_basename uri]) then
          g_build_filename
            [g_build_filename [dir, g_path_get_basename uri], g_path_get_basename uri]
        else g_build_filename [dir, g_path_get_basename uri])) := by
  have hfile : (download_resource_from_uri_async_full env (some uri) path overwrite
      cancellable p_handler c_handler).file = some (resolve_internal_path env uri path).1 := by
    simp only [download_resource_from_uri_async_full]
    split_ifs <;> rfl
  simp only [hfile]
  refine ⟨?_, ?_, ?_⟩
  · intro p hp hs
    subst hp
    simp [resolve_internal_path, default_internal_path, hs]
  · intro p hp hs
    subst hp
    simp [resolve_internal_path, default_internal_path, hs]
  · intro dir hp hd
    subst hp
    simp only [resolve_internal_path, default_internal_path, hd]
    split_ifs <;> rfl

/-- C3 witness: the three cases on the sample host. -/
theorem C3_destination_resolution_witness :
    (download_resource_from_uri_async_full sample_env (some query_uri)
        (some "/tmp/x.bin".toList) true true true true).file = some "/tmp/x.bin".toList ∧
    (download_resource_from_uri_async_full sample_env (some query_uri)
        (some "/tmp/out/".toList) true true true true).file
      = some (g_build_filename ["/tmp/out/".toList, g_path_get_basename query_uri]) ∧
    g_build_filename ["/tmp/out/".toList, g_path_get_basename query_uri]
      = "/tmp/out/file.bin?v=1".toList :=
  ⟨(C3_destination_resolution sample_env query_uri (some "/tmp/x.bin".toList)
      true true true true).1 _ rfl (by decide),
   (C3_destination_resolution sample_env query_uri (some "/tmp/out/".toList)
      true true true true).2.1 _ rfl (by decide),
   by decide⟩

/-! ### The byte counter -/

/-- C4: `downloaded_bytes` starts at 0; after every sequence of completions it
equals the sum of the byte counts reported as written by the write steps so
far, modulo `2 ^ 64`, hence that sum itself while it is below `2 ^ 64`, also
when the record is released; and a step that reads `n` bytes of which the
write reports `k` written advances the counter by `k`, whether or not the
write succeeded. -/
theorem C4_downloaded_bytes_counts_written (env : StartEnv) (uri : Option (List Char))
    (path : Option (List Char)) (overwrite cancellable p_handler c_handler : Bool)
    (s0 : Session)
    (h0 : start env uri path overwrite cancellable p_handler c_handler = some s0) :
    s0.data.downloaded_bytes = 0 ∧
    (∀ cs s, run s0 cs = some s →
      s.data.downloaded_bytes = written_total s.trace % UINT64_MODULUS ∧
      (written_total s.trace < UINT64_MODULUS →
        s.data.downloaded_bytes = written_total s.trace)) ∧
    (∀ cs s rf now1 now2 wa, run s0 cs = some s → s.data.output = true →
      rf.error = false → 0 < rf.nread → rf.nread ≤ 16384 →
      let r := download_resource_from_uri_async_read_cb s.data rf now1 now2 wa
      Event.write_all rf.nread.toNat wa.n_written ∈ r.events ∧
      written_total r.events = wa.n_written ∧
      r.data.downloaded_bytes = (s.data.downloaded_bytes + wa.n_written) % UINT64_MODULUS) := by
  refine ⟨?_, ?_, ?_⟩
  · obtain ⟨u, -, -, -, -, hdb, -⟩ := start_eq_some h0
    exact hdb
  · intro cs s hrun
    have hinv := run_induction counter_inv counter_inv_dispatch cs s0 s
      (counter_inv_start h0) hrun
    refine ⟨hinv.1, fun hlt => ?_⟩
    rw [hinv.1]
    exact Nat.mod_eq_of_lt hlt
  · intro cs s rf now1 now2 wa _ hout herr hpos hle
    obtain ⟨hn, hend⟩ := positive_read_continues rf herr hpos hle
    obtain ⟨hev, hdb, -⟩ := read_cb_streams s.data rf now1 now2 wa hend hout
    refine ⟨?_, ?_, hdb⟩
    · rw [hev, hn]
      simp
    · rw [hev]
      simp only [written_total_append, written_total]
      split_ifs <;> simp [written_total]

/-- C4 witness: the short write of the sample run leaves the counter at 40. -/
theorem C4_downloaded_bytes_counts_written_witness :
    ∃ s0 s, start sample_env (some sample_uri) none true true true true = some s0 ∧
      run s0 short_write_run = some s ∧
      written_total s.trace = 40 ∧
      s.data.downloaded_bytes = written_total s.trace % UINT64_MODULUS := by
  refine ⟨_, _, rfl, rfl, by decide, ?_⟩
  exact ((C4_downloaded_bytes_counts_written sample_env (some sample_uri) none
    true true true true _ rfl).2.1 short_write_run _ rfl).1

/-! ### A failed write -/

/-- C5: evaluation of the code where the claim fails. In the sample run the
write of the first chunk fails after 40 of 100 bytes; the step issues the close
of the response stream and, right after it, a further read, so both operations
are pending; when that read then completes with an error the close is issued a
second time, all before any completion handler has run. -/
theorem C5_failed_write_still_reads :
    ∃ s0 s1 s2,
      start sample_env (some sample_uri) none true true true true = some s0 ∧
      run s0 short_write_run = some s1 ∧
      s1.trace.drop 5 =
        [Event.write_all 100 40, Event.close_async, Event.read_async] ∧
      s1.pending = [AsyncOp.close, AsyncOp.read] ∧ s1.freed = false ∧
      run s1 [Completion.read ⟨-1, true⟩ 9 10 ⟨true, 0, false⟩] = some s2 ∧
      s2.trace.drop 5 =
        [Event.write_all 100 40, Event.close_async, Event.read_async,
         Event.close_async] ∧
      s2.pending = [AsyncOp.close, AsyncOp.close] ∧ Event.c_handler ∉ s2.trace := by
  refine ⟨_, _, _, rfl, rfl, ?_, ?_, ?_, rfl, ?_, ?_, ?_⟩ <;> decide

/-! ### The last progress report -/

/-- In a transfer started with a progress handler none of whose writes failed,
the issue of the close is the last call made before the close callback runs;
that callback invokes the progress handler once, with the values
`downloaded_bytes` and `total_bytes` keep from then on, and the completion
handler, when installed, right after it; no other progress invocation follows
and no operation is left whose callback could still be delivered. -/
theorem clean_close_reports_once (env : StartEnv) (uri : Option (List Char))
    (path : Option (List Char)) (overwrite cancellable c_handler : Bool)
    (s0 s s1 : Session) (cs : List Completion) (close_ok : Bool)
    (h0 : start env uri path overwrite cancellable true c_handler = some s0)
    (hrun : run s0 cs = some s) (hall : all_written cs = true)
    (hclose : dispatch s (Completion.close close_ok) = some s1) :
    ∃ pre rest,
      s.trace = pre ++ [Event.close_async] ∧
      s1.trace = s.trace ++
        Event.p_handler CallSite.read_close_cb s1.data.downloaded_bytes
          s1.data.total_bytes :: rest ∧
      (∀ e ∈ rest, is_progress e = false) ∧
      (c_handler = true → ∃ rest2, rest = Event.c_handler :: rest2) ∧
      s1.data.downloaded_bytes = s.data.downloaded_bytes ∧
      s1.data.total_bytes = s.data.total_bytes ∧
      s1.pending = [] ∧
      (∀ c, deliver s1 c = none) := by
  obtain ⟨hlive, hmem, hdata, -, hpend, htrace⟩ := dispatch_eq_some hclose
  obtain ⟨hp, hc⟩ := run_handlers h0 cs s hrun
  have hstart : single_pending s0 := by
    obtain ⟨u, -, -, hpend0, -⟩ := start_eq_some h0
    intro _
    exact Or.inl hpend0
  have hsp := single_pending_run cs s0 s hstart hall hrun
  have hclosing : s.pending = [AsyncOp.close] ∧
      ∃ pre, s.trace = pre ++ [Event.close_async] := by
    rcases hsp hlive with h | h | h
    · rw [h] at hmem
      simp [Completion.op] at hmem
    · rw [h] at hmem
      simp [Completion.op] at hmem
    · exact h
  obtain ⟨hpending, pre, hpre⟩ := hclosing
  simp only [Completion.callback, download_resource_from_uri_async_read_close_cb, hp, hc,
    if_true] at hdata hpend htrace
  have hnone : s1.pending = [] := by
    rw [hpend, hpending, issued_append, issued_append, issued_free]
    split_ifs <;> simp [Completion.op, issued]
  refine ⟨pre, (if c_handler = true then [Event.c_handler] else []) ++
    download_resource_data_free s.data, hpre, ?_, ?_, ?_, ?_, ?_, hnone, ?_⟩
  · rw [htrace, hdata]
    simp
  · intro e he
    rcases List.mem_append.mp he with h1 | h2
    · split_ifs at h1 <;> simp at h1
      subst h1
      rfl
    · exact free_not_progress s.data e h2
  · intro hct
    exact ⟨download_resource_data_free s.data, by simp [hct]⟩
  · rw [hdata]
  · rw [hdata]
  · intro c
    simp [deliver, hnone]

/-- C6: evaluation of the code where the claim fails. In the sample transfer,
started with both handlers, the write of the first chunk fails after 40 of 100
bytes, so the step issues the close and then a read. When that read completes
with an error two seconds later its step invokes the progress handler and
issues the close again: once the first close has completed there have been two
progress invocations since the close was issued, and the record is released
with a close callback still owed; delivered, it invokes the progress handler
and the completion handler once more, after the completion handler has run.
When instead the close completes first, the read callback still owed invokes
the progress handler after the completion handler. -/
theorem C6_failed_write_reports_again :
    ∃ s0 s1 s2 s3 t2 t3,
      start sample_env (some sample_uri) none true true true true = some s0 ∧
      run s0 (short_write_run ++ [stray_read]) = some s1 ∧
      dispatch s1 (Completion.close true) = some s2 ∧
      s2.trace.drop 5 =
        [Event.write_all 100 40, Event.close_async, Event.read_async,
         Event.p_handler (CallSite.read_cb 2000000) 40 100000, Event.close_async,
         Event.p_handler CallSite.read_close_cb 40 100000, Event.c_handler,
         Event.main_loop_quit, Event.cancellable_cancel, Event.cancellable_unref,
         Event.output_unref, Event.slice_free] ∧
      s2.freed = true ∧ s2.pending = [AsyncOp.close] ∧
      deliver s2 (Completion.close true) = some s3 ∧
      s3.trace.drop 16 =
        [Event.slice_free, Event.p_handler CallSite.read_close_cb 40 100000,
         Event.c_handler, Event.main_loop_quit, Event.cancellable_cancel,
         Event.cancellable_unref, Event.output_unref, Event.slice_free] ∧
      run s0 (short_write_run ++ [Completion.close true]) = some t2 ∧
      t2.freed = true ∧ t2.pending = [AsyncOp.read] ∧
      deliver t2 stray_read = some t3 ∧
      t3.trace.drop 8 =
        [Event.p_handler CallSite.read_close_cb 40 100000, Event.c_handler,
         Event.main_loop_quit, Event.cancellable_cancel, Event.cancellable_unref,
         Event.output_unref, Event.slice_free,
         Event.p_handler (CallSite.read_cb 2000000) 40 100000, Event.close_async] := by
  refine ⟨_, _, _, _, _, _, rfl, rfl, rfl, ?_, ?_, ?_, rfl, ?_, rfl, ?_, ?_, rfl, ?_⟩ <;>
    decide

/-! ### Order of the progress reports -/

/-- C7: as long as the bytes written in total stay below `2 ^ 64`, the values
of `downloaded_bytes` handed to the successive progress handler invocations,
those of the streaming steps and the one made at close alike, are
non-decreasing. -/
theorem C7_progress_values_monotone (env : StartEnv) (uri : Option (List Char))
    (path : Option (List Char)) (overwrite cancellable p_handler c_handler : Bool)
    (s0 s : Session) (cs : List Completion)
    (h0 : start env uri path overwrite cancellable p_handler c_handler = some s0)
    (hrun : run s0 cs = some s)
    (hbound : written_total s.trace < UINT64_MODULUS) :
    List.Pairwise (fun a b => a ≤ b) (progress_values s.trace) :=
  ((run_induction counter_inv counter_inv_dispatch cs s0 s (counter_inv_start h0) hrun).2
    hbound).1

/-- C7 witness: the sample transfer reports 0, 100 and 100. -/
theorem C7_progress_values_monotone_witness :
    ∃ s0 s, start sample_env (some sample_uri) none true true true true = some s0 ∧
      run s0 (full_run ++ [Completion.close true]) = some s ∧
      progress_values s.trace = [0, 100, 100] ∧
      List.Pairwise (fun a b => a ≤ b) (progress_values s.trace) := by
  refine ⟨_, _, rfl, rfl, by decide, ?_⟩
  exact C7_progress_values_monotone sample_env (some sample_uri) none true true true true
    _ _ (full_run ++ [Completion.close true]) rfl rfl (by decide)

/-! ### The one second gate -/

/-- C8: in a transfer started with a progress handler at a non-negative clock
reading, whose later readings never go back and stay in the range of `gint64`,
the streaming invocations of the progress handler are each more than 1000000
microseconds after the one before, the first more than 1000000 microseconds
after the reading stored at the start; and the next streaming step, taken at a
reading `now1` not before the last one, invokes the progress handler if and
only if `now1 - last_progress_time > 1000000`, in which case it stores the
fresh reading in `last_progress_time`, and otherwise leaves it as it is. -/
theorem C8_progress_gate (env : StartEnv) (uri : Option (List Char))
    (path : Option (List Char)) (overwrite cancellable c_handler : Bool)
    (s0 s : Session) (cs : List Completion)
    (h0 : start env uri path overwrite cancellable true c_handler = some s0)
    (hnow : 0 ≤ env.now)
    (hmono : List.Chain (fun a b => a ≤ b) env.now (clock_readings cs))
    (hrange : ∀ t ∈ env.now :: clock_readings cs, t < 9223372036854775808)
    (hrun : run s0 cs = some s) :
    List.Chain (fun a b => a + 1000000 < b) env.now (stream_times s.trace) ∧
    ∀ (rf : ReadFinish) (now1 now2 : Int) (wa : WriteAll),
      (clock_readings cs).getLastD env.now ≤ now1 → now1 < 9223372036854775808 →
      ((∃ d t, Event.p_handler (CallSite.read_cb now1) d t ∈
          (download_resource_from_uri_async_read_cb s.data rf now1 now2 wa).events) ↔
        now1 - (s.data.last_progress_time : Int) > 1000000) ∧
      (now1 - (s.data.last_progress_time : Int) > 1000000 →
        (download_resource_from_uri_async_read_cb s.data rf now1 now2 wa).data.last_progress_time
          = to_guint64 now2) ∧
      (¬ now1 - (s.data.last_progress_time : Int) > 1000000 →
        (download_resource_from_uri_async_read_cb s.data rf now1 now2 wa).data.last_progress_time
          = s.data.last_progress_time) := by
  obtain ⟨u, -, -, -, -, -, -, -, -, -, hlpt⟩ := start_eq_some h0
  obtain ⟨-, -, htimes⟩ := start_trace_quiet h0
  have hmax : env.now < 9223372036854775808 := hrange _ (by simp)
  have hconv : ((to_guint64 env.now : Nat) : Int) = env.now := by
    unfold to_guint64
    omega
  have hinit : gate_inv env.now s0 env.now := by
    refine ⟨hmax, ?_, ?_, ?_⟩
    · rw [hlpt, hconv]
    · rw [htimes, hlpt, hconv]
      simp
    · rw [htimes]
      exact List.Chain.nil
  obtain ⟨-, hlast, -, hchain⟩ := gate_inv_run env.now cs s0 s env.now hinit hmono
    (fun t ht => hrange t (List.mem_cons_of_mem _ ht)) hrun
  obtain ⟨hp, -⟩ := run_handlers h0 cs s hrun
  refine ⟨hchain, ?_⟩
  intro rf now1 now2 wa hge hlt
  obtain ⟨hst, hl⟩ := read_cb_gate s.data rf now1 now2 wa
  have hiff := progress_due_iff now1 s.data.last_progress_time (by omega) hlt
  refine ⟨?_, ?_, ?_⟩
  · rw [← mem_stream_times, hst, hp, Bool.and_true, ← hiff]
    by_cases hdue : progress_due now1 s.data.last_progress_time = true <;> simp [hdue]
  · intro hgt
    rw [hl, if_pos (hiff.mpr hgt)]
  · intro hgt
    rw [hl, if_neg (fun h => hgt (hiff.mp h))]

/-- C8 witness: the sample transfer, started at reading 5, reports at 2000000
and at 4000000. -/
theorem C8_progress_gate_witness :
    ∃ s0 s, start sample_env (some sample_uri) none true true true true = some s0 ∧
      run s0 full_run = some s ∧
      stream_times s.trace = [2000000, 4000000] ∧
      List.Chain (fun a b => a + 1000000 < b) sample_env.now (stream_times s.trace) := by
  refine ⟨_, _, rfl, rfl, by decide, ?_⟩
  exact (C8_progress_gate sample_env (some sample_uri) none true true true _ _ full_run
    rfl (by decide) (by simp [full_run, clock_readings, sample_env])
    (by simp [full_run, clock_readings, sample_env]) rfl).1

/-! ### Failures while the request is set up -/

/-- C9: when sending the request fails, or the request is sent and opening the
destination fails, the request callback releases the transfer at once: no
operation is pending, nothing can be delivered any more, `downloaded_bytes` is
0, and no read, write or close of a stream was ever issued; when it is the send
that failed the destination was not opened either. -/
theorem C9_request_failures_do_no_io (env : StartEnv) (uri : Option (List Char))
    (path : Option (List Char)) (overwrite cancellable p_handler c_handler : Bool)
    (s0 : Session) (sf : SendFinish) (fr : FileReplace)
    (h0 : start env uri path overwrite cancellable p_handler c_handler = some s0)
    (hfail : sf.error = true ∨ fr.error = true) :
    ∃ s, dispatch s0 (Completion.send sf fr) = some s ∧
      s.freed = true ∧ s.pending = [] ∧ (∀ c, dispatch s c = none) ∧
      s.data.downloaded_bytes = 0 ∧
      (sf.error = true → Event.file_replace ∉ s.trace) ∧
      Event.read_async ∉ s.trace ∧ Event.close_async ∉ s.trace ∧
      (∀ n k, Event.write_all n k ∉ s.trace) := by
  obtain ⟨u, -, htrace0, hpend0, hfreed0, hdb0, -⟩ := start_eq_some h0
  have hsome : ∃ s, dispatch s0 (Completion.send sf fr) = some s := by
    simp [dispatch, hfreed0, hpend0, Completion.op]
  obtain ⟨s, hd⟩ := hsome
  obtain ⟨-, -, hdata, hfreed, hpend, htrace⟩ := dispatch_eq_some hd
  have hcb : (Completion.send sf fr).callback s0.data =
      download_resource_from_uri_async_cb s0.data sf fr := rfl
  have hpre : ∀ e ∈ s0.trace, e ≠ Event.file_replace ∧ e ≠ Event.read_async ∧
      e ≠ Event.close_async ∧ ∀ n k, e ≠ Event.write_all n k := by
    intro e he
    rw [htrace0] at he
    rcases List.mem_append.mp he with h | h
    · obtain ⟨dir, hdir⟩ := resolve_events_mkdir env u path e h
      subst hdir
      simp
    · simp at h
      rcases h with h | h | h <;> subst h <;> simp
  have hfree : ∀ d, ∀ e ∈ download_resource_data_free d, e ≠ Event.file_replace ∧
      e ≠ Event.read_async ∧ e ≠ Event.close_async ∧ ∀ n k, e ≠ Event.write_all n k := by
    intro d e he
    rcases mem_free d e he with h | h | h | h | h <;> subst h <;> simp
  refine ⟨s, hd, ?_⟩
  rw [hcb] at hdata hfreed hpend htrace
  by_cases hsf : sf.error = true
  · simp only [download_resource_from_uri_async_cb, hsf, if_true] at hdata hfreed hpend htrace
    refine ⟨hfreed, ?_, fun c => dispatch_freed s c hfreed, ?_, ?_, ?_, ?_, ?_⟩
    · rw [hpend, hpend0, issued_free]
      simp [Completion.op]
    · rw [hdata]
      exact hdb0
    · intro _ hmem
      rw [htrace] at hmem
      rcases List.mem_append.mp hmem with h | h
      · exact (hpre _ h).1 rfl
      · exact (hfree _ _ h).1 rfl
    · intro hmem
      rw [htrace] at hmem
      rcases List.mem_append.mp hmem with h | h
      · exact (hpre _ h).2.1 rfl
      · exact (hfree _ _ h).2.1 rfl
    · intro hmem
      rw [htrace] at hmem
      rcases List.mem_append.mp hmem with h | h
      · exact (hpre _ h).2.2.1 rfl
      · exact (hfree _ _ h).2.2.1 rfl
    · intro n k hmem
      rw [htrace] at hmem
      rcases List.mem_append.mp hmem with h | h
      · exact (hpre _ h).2.2.2 n k rfl
      · exact (hfree _ _ h).2.2.2 n k rfl
  · have hfr : fr.error = true := by
      rcases hfail with h | h
      · exact absurd h hsf
      · exact h
    simp only [download_resource_from_uri_async_cb, hsf, hfr, if_true, if_false,
      Bool.false_eq_true] at hdata hfreed hpend htrace
    refine ⟨hfreed, ?_, fun c => dispatch_freed s c hfreed, ?_, ?_, ?_, ?_, ?_⟩
    · rw [hpend, hpend0, issued_append, issued_free]
      simp [Completion.op, issued]
    · rw [hdata]
      exact hdb0
    · intro h
      exact absurd h hsf
    · intro hmem
      rw [htrace] at hmem
      rcases List.mem_append.mp hmem with h | h
      · exact (hpre _ h).2.1 rfl
      · rcases List.mem_append.mp h with h | h
        · simp at h
        · exact (hfree _ _ h).2.1 rfl
    · intro hmem
      rw [htrace] at hmem
      rcases List.mem_append.mp hmem with h | h
      · exact (hpre _ h).2.2.1 rfl
      · rcases List.mem_append.mp h with h | h
        · simp at h
        · exact (hfree _ _ h).2.2.1 rfl
    · intro n k hmem
      rw [htrace] at hmem
      rcases List.mem_append.mp hmem with h | h
      · exact (hpre _ h).2.2.2 n k rfl
      · rcases List.mem_append.mp h with h | h
        · simp at h
        · exact (hfree _ _ h).2.2.2 n k rfl

/-- C9 witness: the sample transfer whose destination cannot be opened. -/
theorem C9_request_failures_do_no_io_witness :
    ∃ s0 s, start sample_env (some sample_uri) none true true true true = some s0 ∧
      dispatch s0 (Completion.send ⟨false, 100000⟩ ⟨false, true⟩) = some s ∧
      s.freed = true ∧ s.pending = [] ∧ s.data.downloaded_bytes = 0 ∧
      Event.read_async ∉ s.trace := by
  obtain ⟨s, hd, hf, hp, -, hdb, -, hr, -⟩ := C9_request_failures_do_no_io sample_env
    (some sample_uri) none true true true true _ ⟨false, 100000⟩ ⟨false, true⟩ rfl
    (Or.inr rfl)
  exact ⟨_, s, rfl, hd, hf, hp, hdb, hr⟩

/-! ### The byte counter and the announced length -/

/-- C10, as stated, fails: the server announces 10 bytes and the first chunk
has 20; the step writes and counts all 20, so that `downloaded_bytes` is 20
with `total_bytes` 10, no close is issued and the next read is pending. -/
theorem C10_counterexample_overrun :
    ∃ s0 s, start sample_env (some sample_uri) none true true true true = some s0 ∧
      run s0 [Completion.send ⟨false, 10⟩ ⟨true, false⟩,
              Completion.read ⟨20, false⟩ 7 8 ⟨true, 20, false⟩] = some s ∧
      s.data.total_bytes = 10 ∧ s.data.downloaded_bytes = 20 ∧
      Event.write_all 20 20 ∈ s.trace ∧ Event.close_async ∉ s.trace ∧
      s.pending = [AsyncOp.read] ∧ s.freed = false := by
  refine ⟨_, _, rfl, rfl, ?_, ?_, ?_, ?_, ?_, ?_⟩ <;> decide

/-- C10, amended: `downloaded_bytes` is at most `total_bytes` whenever the bytes
written in total are (a well-behaved server); the streaming step itself never
looks at `total_bytes`: a chunk that is read and fully written is counted
whatever `total_bytes` is, no close is issued and the next read is. -/
theorem C10_counter_ignores_total (env : StartEnv) (uri : Option (List Char))
    (path : Option (List Char)) (overwrite cancellable p_handler c_handler : Bool)
    (s0 s : Session) (cs : List Completion)
    (h0 : start env uri path overwrite cancellable p_handler c_handler = some s0)
    (hrun : run s0 cs = some s) :
    (written_total s.trace ≤ s.data.total_bytes →
      s.data.downloaded_bytes ≤ s.data.total_bytes) ∧
    (∀ (rf : ReadFinish) (now1 now2 : Int) (wa : WriteAll),
      s.data.output = true → rf.error = false → 0 < rf.nread → rf.nread ≤ 16384 →
      wa.written = true →
      (download_resource_from_uri_async_read_cb s.data rf now1 now2 wa).data.downloaded_bytes
        = (s.data.downloaded_bytes + wa.n_written) % UINT64_MODULUS ∧
      (download_resource_from_uri_async_read_cb s.data rf now1 now2 wa).data.total_bytes
        = s.data.total_bytes ∧
      Event.write_all rf.nread.toNat wa.n_written ∈
        (download_resource_from_uri_async_read_cb s.data rf now1 now2 wa).events ∧
      Event.close_async ∉
        (download_resource_from_uri_async_read_cb s.data rf now1 now2 wa).events ∧
      issued (download_resource_from_uri_async_read_cb s.data rf now1 now2 wa).events
        = [AsyncOp.read]) := by
  have hinv := run_induction counter_inv counter_inv_dispatch cs s0 s
    (counter_inv_start h0) hrun
  refine ⟨?_, ?_⟩
  · intro hle
    rw [hinv.1]
    exact le_trans (Nat.mod_le _ _) hle
  · intro rf now1 now2 wa hout herr hpos hle hw
    obtain ⟨hn, hend⟩ := positive_read_continues rf herr hpos hle
    obtain ⟨hev, hdb, htb⟩ := read_cb_streams s.data rf now1 now2 wa hend hout
    refine ⟨hdb, htb, ?_, ?_, ?_⟩
    · rw [hev, hn]
      simp
    · rw [hev, hw]
      simp only [if_true, List.append_nil]
      split_ifs <;> simp
    · rw [hev, hw]
      simp only [if_true, List.append_nil]
      split_ifs <;> simp [issued]

/-- C10 witness: the sample transfer of 100 announced bytes after its chunk of
100 bytes. -/
theorem C10_counter_ignores_total_witness :
    ∃ s0 s, start sample_env (some sample_uri) none true true true true = some s0 ∧
      run s0 full_run = some s ∧
      written_total s.trace ≤ s.data.total_bytes ∧
      s.data.downloaded_bytes ≤ s.data.total_bytes := by
  refine ⟨_, _, rfl, rfl, by decide, ?_⟩
  exact (C10_counter_ignores_total sample_env (some sample_uri) none true true true true
    _ _ full_run rfl rfl).1 (by decide)

/-! ### End of the stream -/

/-- C11: a streaming step whose read returns zero bytes, returns `-1`, or sets
the error, makes no write, leaves `downloaded_bytes` as it was, issues the
close of the response stream exactly once and issues no read; the record stays
live until that close completes. -/
theorem C11_end_of_stream_closes (data : DownloadResourceData) (rf : ReadFinish)
    (now1 now2 : Int) (wa : WriteAll)
    (hend : rf.nread = 0 ∨ rf.nread = -1 ∨ rf.error = true) :
    (∀ n k, Event.write_all n k ∉
      (download_resource_from_uri_async_read_cb data rf now1 now2 wa).events) ∧
    written_total (download_resource_from_uri_async_read_cb data rf now1 now2 wa).events = 0 ∧
    (download_resource_from_uri_async_read_cb data rf now1 now2 wa).data.downloaded_bytes
      = data.downloaded_bytes ∧
    (download_resource_from_uri_async_read_cb data rf now1 now2 wa).events.count
      Event.close_async = 1 ∧
    Event.read_async ∉ (download_resource_from_uri_async_read_cb data rf now1 now2 wa).events ∧
    issued (download_resource_from_uri_async_read_cb data rf now1 now2 wa).events
      = [AsyncOp.close] ∧
    (download_resource_from_uri_async_read_cb data rf now1 now2 wa).freed = false := by
  have hcond : to_guint64 rf.nread = to_guint64 (-1) ∨ to_guint64 rf.nread = 0 ∨
      rf.error = true := by
    rcases hend with h | h | h
    · right
      left
      rw [h]
      rfl
    · left
      rw [h]
    · right
      right
      exact h
  unfold download_resource_from_uri_async_read_cb
  simp only [if_pos hcond]
  by_cases hdue : progress_due now1 data.last_progress_time = true <;>
    by_cases hp : data.p_handler = true <;>
    simp [hdue, hp, written_total, issued]

/-- C11 witness: the stream of the sample transfer is at its end. -/
theorem C11_end_of_stream_closes_witness :
    ∃ s0 s, start sample_env (some sample_uri) none true true true true = some s0 ∧
      run s0 [Completion.send ⟨false, 100⟩ ⟨true, false⟩] = some s ∧
      issued (download_resource_from_uri_async_read_cb s.data end_of_stream 7 8
        ⟨true, 0, false⟩).events = [AsyncOp.close] ∧
      (download_resource_from_uri_async_read_cb s.data end_of_stream 7 8
        ⟨true, 0, false⟩).data.downloaded_bytes = s.data.downloaded_bytes := by
  refine ⟨_, _, rfl, rfl, ?_, ?_⟩
  · exact (C11_end_of_stream_closes _ end_of_stream 7 8 ⟨true, 0, false⟩
      (Or.inl rfl)).2.2.2.2.2.1
  · exact (C11_end_of_stream_closes _ end_of_stream 7 8 ⟨true, 0, false⟩
      (Or.inl rfl)).2.2.1

/-! ### The cancellation token at cleanup -/

theorem token_cancelled_iff (l : List Event) :
    token_cancelled false l = true ↔ Event.cancellable_cancel ∈ l := by
  induction l with
  | nil => simp [token_cancelled]
  | cons e es ih => cases e <;> simp [token_cancelled, ih]

theorem start_cancellable {env : StartEnv} {uri : Option (List Char)}
    {path : Option (List Char)} {overwrite cancellable p_handler c_handler : Bool}
    {s0 : Session}
    (h : start env uri path overwrite cancellable p_handler c_handler = some s0) :
    s0.data.cancellable = cancellable ∧ s0.data.loop = true := by
  cases uri with
  | none => simp [start, download_resource_from_uri_async_full] at h
  | some u =>
    by_cases h1 : (!overwrite && env.query_exists (resolve_internal_path env u path).1) = true
    · simp [start, download_resource_from_uri_async_full, h1] at h
    · by_cases h2 : env.request_error = true
      · simp [start, download_resource_from_uri_async_full, h1, h2] at h
      · simp only [start, download_resource_from_uri_async_full, h1, h2, if_false,
          Bool.false_eq_true, Option.some.injEq] at h
        subst h
        simp

/-- With a token in the record, the cleanup cancels it after quitting the
loop, and only the cleanup does. -/
theorem free_cancels (data : DownloadResourceData) (hc : data.cancellable = true) :
    ∃ pre post, download_resource_data_free data = pre ++ Event.cancellable_cancel :: post ∧
      Event.cancellable_cancel ∉ pre ∧ Event.c_handler ∉ post := by
  refine ⟨if data.loop then [Event.main_loop_quit] else [],
    Event.cancellable_unref :: ((if data.output then [Event.output_unref] else []) ++
      [Event.slice_free]), ?_, ?_, ?_⟩
  · simp [download_resource_data_free, hc]
  · split_ifs <;> simp
  · split_ifs <;> simp

/-- A callback keeps the token of the record and calls `g_cancellable_cancel`
exactly when it releases the record. -/
theorem callback_cancel (c : Completion) (data : DownloadResourceData)
    (hc : data.cancellable = true) :
    (c.callback data).data.cancellable = true ∧
    ((c.callback data).freed = true → Event.cancellable_cancel ∈ (c.callback data).events) ∧
    ((c.callback data).freed = false →
      Event.cancellable_cancel ∉ (c.callback data).events) := by
  have hfree : ∀ d : DownloadResourceData, d.cancellable = true →
      Event.cancellable_cancel ∈ download_resource_data_free d := by
    intro d hd
    obtain ⟨pre, post, heq, -⟩ := free_cancels d hd
    rw [heq]
    simp
  cases c with
  | send sf fr =>
    simp only [Completion.callback, download_resource_from_uri_async_cb]
    split_ifs
    · exact ⟨hc, fun _ => hfree _ hc, fun h => by simp at h⟩
    · refine ⟨hc, fun _ => ?_, fun h => by simp at h⟩
      exact List.mem_append_right _ (hfree _ hc)
    · refine ⟨hc, fun h => by simp at h, fun _ => by simp⟩
  | read rf now1 now2 wa =>
    simp only [Completion.callback, download_resource_from_uri_async_read_cb]
    split_ifs <;> simp [hc]
  | close ok =>
    simp only [Completion.callback, download_resource_from_uri_async_read_close_cb]
    refine ⟨hc, fun _ => ?_, fun h => by simp at h⟩
    exact List.mem_append_right _ (hfree _ hc)

/-- C12: in a transfer started with a cancellation token that the caller never
cancels, the token is not cancelled while the record is live and is cancelled
once the record has been released, also when every read and write succeeded;
and when the release comes from the close callback, the call that cancels the
token comes after the completion handler, which is not invoked again. -/
theorem C12_cleanup_cancels_token (env : StartEnv) (uri : Option (List Char))
    (path : Option (List Char)) (overwrite p_handler c_handler : Bool)
    (s0 s : Session) (cs : List Completion)
    (h0 : start env uri path overwrite true p_handler c_handler = some s0)
    (hrun : run s0 cs = some s) :
    (s.freed = true → token_cancelled false s.trace = true) ∧
    (s.freed = false → token_cancelled false s.trace = false) ∧
    (∀ close_ok s1, dispatch s (Completion.close close_ok) = some s1 →
      s1.freed = true ∧
      ∃ pre post, s1.trace = s.trace ++ pre ++ Event.cancellable_cancel :: post ∧
        token_cancelled false (s.trace ++ pre) = false ∧
        (c_handler = true → Event.c_handler ∈ pre) ∧ Event.c_handler ∉ post) := by
  have hinv : s.data.cancellable = true ∧
      (s.freed = true → Event.cancellable_cancel ∈ s.trace) ∧
      (s.freed = false → Event.cancellable_cancel ∉ s.trace) := by
    refine run_induction
      (fun t => t.data.cancellable = true ∧
        (t.freed = true → Event.cancellable_cancel ∈ t.trace) ∧
        (t.freed = false → Event.cancellable_cancel ∉ t.trace))
      ?_ cs s0 s ?_ hrun
    · intro t c t1 ht hd
      obtain ⟨hlive, -, hdata, hfreed, -, htrace⟩ := dispatch_eq_some hd
      obtain ⟨hc1, hc2, hc3⟩ := callback_cancel c t.data ht.1
      refine ⟨by rw [hdata]; exact hc1, ?_, ?_⟩
      · intro hf
        rw [htrace]
        exact List.mem_append_right _ (hc2 (hfreed ▸ hf))
      · intro hf hmem
        rw [htrace] at hmem
        rcases List.mem_append.mp hmem with h | h
        · exact ht.2.2 hlive h
        · exact hc3 (hfreed ▸ hf) h
    · obtain ⟨u, -, htrace0, -, hfreed0, -⟩ := start_eq_some h0
      refine ⟨(start_cancellable h0).1, ?_, ?_⟩
      · intro hf
        rw [hfreed0] at hf
        cases hf
      · intro _ hmem
        rw [htrace0] at hmem
        rcases List.mem_append.mp hmem with h | h
        · obtain ⟨dir, hdir⟩ := resolve_events_mkdir env u path _ h
          cases hdir
        · simp at h
  obtain ⟨hcanc, hdone, hlive⟩ := hinv
  refine ⟨?_, ?_, ?_⟩
  · intro hf
    exact (token_cancelled_iff _).mpr (hdone hf)
  · intro hf
    rw [Bool.eq_false_iff]
    intro ht
    exact hlive hf ((token_cancelled_iff _).mp ht)
  · intro close_ok s1 hclose
    obtain ⟨hl, -, -, hfreed, -, htrace⟩ := dispatch_eq_some hclose
    obtain ⟨-, hch⟩ := run_handlers h0 cs s hrun
    obtain ⟨pre, post, hfree, hpre, hpost⟩ := free_cancels s.data hcanc
    simp only [Completion.callback, download_resource_from_uri_async_read_close_cb,
      hfree] at hfreed htrace
    refine ⟨hfreed, (if s.data.p_handler = true then
        [Event.p_handler CallSite.read_close_cb s.data.downloaded_bytes s.data.total_bytes]
      else []) ++ (if s.data.c_handler = true then [Event.c_handler] else []) ++ pre,
      post, ?_, ?_, ?_, hpost⟩
    · rw [htrace]
      simp
    · rw [Bool.eq_false_iff]
      intro ht
      have hmem := (token_cancelled_iff _).mp ht
      rcases List.mem_append.mp hmem with h | h
      · exact hlive hl h
      · rcases List.mem_append.mp h with h | h
        · rcases List.mem_append.mp h with h | h
          · split_ifs at h <;> simp at h
          · split_ifs at h <;> simp at h
        · exact hpre h
    · intro hct
      rw [hch, hct]
      simp

/-- C12 witness: the sample transfer, never cancelled by the caller and
without any failure, leaves the token cancelled. -/
theorem C12_cleanup_cancels_token_witness :
    ∃ s0 s, start sample_env (some sample_uri) none true true true true = some s0 ∧
      run s0 (full_run ++ [Completion.close true]) = some s ∧
      s.freed = true ∧ token_cancelled false s.trace = true := by
  refine ⟨_, _, rfl, rfl, rfl, ?_⟩
  exact (C12_cleanup_cancels_token sample_env (some sample_uri) none true true true _ _
    (full_run ++ [Completion.close true]) rfl rfl).1 rfl

end DownloadAsync
